import Mathlib

/-!
Shallow embedding of the pharma data-reshaping and metrics pipeline
(src/pharma/backend/execute_query.py and src/pharma/utils/loaders.py).

Conventions of the embedding:
* A dataframe cell is either missing (pandas NaN in an object column), a
  string, or a number.  Because the CSV readers use dtype=str and then run
  pd.to_numeric(errors=coerce), a cell that to_numeric can parse is
  represented directly by its parsed rational value (constructor num), and
  a cell it cannot parse by constructor str; NaN is constructor missing.
* Machine floats are modelled by rationals; the only float special values
  the pipeline can produce are NaN and infinities from division by zero,
  modelled explicitly by the FVal type.
* Row order of intermediate tables can differ from pandas (pandas sorts
  group keys and merge keys); every theorem below is invariant under row
  order except where an output is totally ordered by its sort key.
-/

namespace Pharma

/-- A dataframe cell: missing (NaN), a string, or a parsed number. -/
inductive Cell where
  | missing : Cell
  | str : String → Cell
  | num : ℚ → Cell
deriving DecidableEq, Repr

/-- A code-to-label lookup table (the data/*.csv mapping files, read as
Key/Value string pairs into a dict). -/
abbrev KMap := List (String × String)

/-- Dict lookup: first entry whose key matches. -/
def lookupMap (m : KMap) (k : String) : Option String :=
  (m.find? (fun p => p.1 = k)).map (fun p => p.2)

/-- Python dict.get(k, d): lookup with a default. -/
def lookupD (m : KMap) (k : String) : String :=
  (lookupMap m k).getD k

/-- The five mapping dictionaries returned by load_maps.  load_maps reads
them from external CSV files, so the embedding takes them as parameters. -/
structure Maps where
  sex : KMap
  age : KMap
  region : KMap
  presc : KMap
  cpi : KMap

/-- Series.map(dict).fillna(orig) on one cell: a dict lookup hits only
string keys; a missing or numeric cell misses the (string-keyed) dict and
is then filled back with the original cell orig. -/
def mapFillna (m : KMap) (orig : Cell) : Cell → Cell
  | Cell.str s =>
      match lookupMap m s with
      | some v => Cell.str v
      | none => orig
  | _ => orig

/-- Series.astype(str) on one cell: strings unchanged, NaN prints as the
string nan, numbers print via their decimal representation (the claims
below only exercise this on string cells, where it is the identity). -/
def astypeStr : Cell → Cell
  | Cell.missing => Cell.str ("nan")
  | Cell.str s => Cell.str s
  | Cell.num q => Cell.str (toString q)

/-- Result of a float division: pandas division of exact operands yields
NaN for 0/0, signed infinity for x/0 with x nonzero, else the quotient. -/
inductive FVal where
  | nan : FVal
  | posInf : FVal
  | negInf : FVal
  | val : ℚ → FVal
deriving DecidableEq, Repr

/-- Float division semantics used for the share columns. -/
def fdiv (x y : ℚ) : FVal :=
  if y = 0 then (if x = 0 then FVal.nan else if 0 < x then FVal.posInf else FVal.negInf)
  else FVal.val (x / y)

/-- Comparison used by sort_values on a share column, with NaN placed last
(na_position=last) and infinities at the ends. -/
def FVal.leB : FVal → FVal → Bool
  | _, FVal.nan => true
  | FVal.nan, _ => false
  | FVal.negInf, _ => true
  | _, FVal.negInf => false
  | FVal.val a, FVal.val b => decide (a ≤ b)
  | FVal.val _, FVal.posInf => true
  | FVal.posInf, FVal.val _ => false
  | FVal.posInf, FVal.posInf => true

/-- sort_values by a key column.  The embedding uses a stable insertion
sort; pandas uses an unstable quicksort by default, so the two agree up to
the relative order of tied rows, which no theorem below depends on. -/
def sortByShare (key : α → FVal) (l : List α) : List α :=
  List.insertionSort (fun a b => FVal.leB (key a) (key b) = true) l

/-!
Model of the unified wide frames that compare_brand_vs_generic receives:
one row per (BEN_REG, sexe, age, product) with a total_boites column and
one numeric column per prescriber specialty.  The product_code and
product_type columns added by prepare_unified are omitted here: they are
excluded from the prescriber column list and are not grouping keys, so
they influence no output of compare_brand_vs_generic.  Multiple rows may
share a (BEN_REG, sexe, age) key (one per product); groupby sums them.
-/

/-- One row of a unified wide frame.  presc is parallel to the prescCols
list of the enclosing table. -/
structure URow where
  reg : Cell
  sex : Cell
  age : Cell
  total : ℚ
  presc : List ℚ
deriving DecidableEq, Repr

/-- A unified wide frame: the prescriber column names and the rows. -/
structure UTable where
  prescCols : List String
  rows : List URow
deriving DecidableEq, Repr

/-- A (BEN_REG, sexe, age) grouping key. -/
structure SegKey where
  reg : Cell
  sex : Cell
  age : Cell
deriving DecidableEq, Repr

def URow.key (r : URow) : SegKey := ⟨r.reg, r.sex, r.age⟩

/-- groupby default dropna=True: a row whose key has a missing component
is excluded from the grouped result. -/
def SegKey.notNA (k : SegKey) : Prop :=
  k.reg ≠ Cell.missing ∧ k.sex ≠ Cell.missing ∧ k.age ≠ Cell.missing

instance : DecidablePred SegKey.notNA := fun _ => by
  unfold SegKey.notNA; infer_instance

/-- Distinct non-NA group keys of a table (the index of the groupby
result; pandas emits them sorted, the embedding in first-listed order,
which only affects row order). -/
def groupKeys (t : UTable) : List SegKey :=
  (((t.rows.map URow.key).filter (fun k => decide k.notNA))).dedup

/-- Sum of total_boites over the rows of one group. -/
def groupTotal (t : UTable) (k : SegKey) : ℚ :=
  ((t.rows.filter (fun r => decide (r.key = k))).map URow.total).sum

/-- Keys of the outer merge of the two grouped tables: every key of
either side, once. -/
def mergedKeys (brand generic : UTable) : List SegKey :=
  groupKeys brand ++ (groupKeys generic).filter (fun k => decide (k ∉ groupKeys brand))

/-- One row of the segment_comparison output (raw code columns already
dropped, label columns in their place). -/
structure SegRow where
  brand_total : ℚ
  generic_total : ℚ
  combined_total : ℚ
  brand_share : FVal
  region : Cell
  sex : Cell
  age : Cell
deriving DecidableEq, Repr

/-- The segment row for one merged key: the outer merge fills the side a
key is absent from with 0 via fillna(0), and groupTotal is 0 exactly on
such keys, so both sides read off groupTotal; then combined_total and
brand_share are derived and the codes are label-resolved (astype(str)
followed by map followed by fillna with the raw code column). -/
def segRow (mp : Maps) (brand generic : UTable) (k : SegKey) : SegRow :=
  let b := groupTotal brand k
  let g := groupTotal generic k
  { brand_total := b
    generic_total := g
    combined_total := b + g
    brand_share := fdiv b (b + g)
    region := mapFillna mp.region k.reg (astypeStr k.reg)
    sex := mapFillna mp.sex k.sex (astypeStr k.sex)
    age := mapFillna mp.age k.age (astypeStr k.age) }

/-- The segment_comparison table: one row per merged key, sorted
ascending by brand_share. -/
def segmentComparison (mp : Maps) (brand generic : UTable) : List SegRow :=
  sortByShare (fun r => r.brand_share)
    ((mergedKeys brand generic).map (segRow mp brand generic))

/-- One row of a one-dimensional summary (region_summary, age_summary or
gender_summary). -/
structure DimRow where
  label : Cell
  brand_total : ℚ
  generic_total : ℚ
  combined_total : ℚ
  brand_share : FVal
deriving DecidableEq, Repr

/-- Distinct non-missing labels of one segment column (the groupby index
of a one-dimensional rollup, dropna=True again). -/
def dimKeys (proj : SegRow → Cell) (seg : List SegRow) : List Cell :=
  ((seg.map proj).filter (fun c => decide (c ≠ Cell.missing))).dedup

/-- The rollup row for one label: re-sum both totals over the group and
recompute combined_total and brand_share from the rolled-up sums. -/
def dimRowFor (proj : SegRow → Cell) (seg : List SegRow) (k : Cell) : DimRow :=
  let grp := seg.filter (fun r => decide (proj r = k))
  let b := (grp.map SegRow.brand_total).sum
  let g := (grp.map SegRow.generic_total).sum
  { label := k
    brand_total := b
    generic_total := g
    combined_total := b + g
    brand_share := fdiv b (b + g) }

/-- groupby on one label column of the segment table, one row per label,
then sort_values by brand_share. -/
def dimSummary (proj : SegRow → Cell) (seg : List SegRow) : List DimRow :=
  sortByShare (fun r => r.brand_share) ((dimKeys proj seg).map (dimRowFor proj seg))

/-- A melted long-form key: demographic key plus prescriber column name
(the PSP_SPE value produced by melt). -/
structure PKey where
  reg : Cell
  sex : Cell
  age : Cell
  spe : String
deriving DecidableEq, Repr

/-- melt over the prescriber columns: one record per input row and
prescriber column, carrying that column value.  melt keeps rows whose
id_vars contain NaN.  Pandas emits the records column-major; the
embedding row-major, which only affects row order. -/
def meltPresc (t : UTable) : List (PKey × ℚ) :=
  (t.rows.map (fun r =>
    (t.prescCols.zip r.presc).map (fun p => (⟨r.reg, r.sex, r.age, p.1⟩, p.2)))).flatten

/-- One row of the prescriber_comparison output. -/
structure PRow where
  brand_boites : ℚ
  generic_boites : ℚ
  combined_total : ℚ
  brand_share : FVal
  region : Cell
  sex : Cell
  age : Cell
  prescriber : Cell
deriving DecidableEq, Repr

/-- Outer merge of the two melted tables on the four-part key, with
fillna(0) on the side a key is absent from.  The merge is row-level and
many-to-many: a left record pairs with every matching right record. -/
def mergePresc (bm gm : List (PKey × ℚ)) : List (PKey × ℚ × ℚ) :=
  (bm.map (fun p =>
    let ms := gm.filter (fun q => decide (q.1 = p.1))
    if ms.isEmpty then [(p.1, p.2, 0)]
    else ms.map (fun q => (p.1, p.2, q.2)))).flatten
  ++ ((gm.filter (fun q => decide (∀ p ∈ bm, p.1 ≠ q.1))).map
        (fun q => (q.1, 0, q.2)))

/-- Build one prescriber_comparison row: derived columns, then label
resolution for region, sex, age and prescriber, raw codes dropped. -/
def pRow (mp : Maps) (m : PKey × ℚ × ℚ) : PRow :=
  let b := m.2.1
  let g := m.2.2
  { brand_boites := b
    generic_boites := g
    combined_total := b + g
    brand_share := fdiv b (b + g)
    region := mapFillna mp.region m.1.reg (astypeStr m.1.reg)
    sex := mapFillna mp.sex m.1.sex (astypeStr m.1.sex)
    age := mapFillna mp.age m.1.age (astypeStr m.1.age)
    prescriber := mapFillna mp.presc (Cell.str m.1.spe) (Cell.str m.1.spe) }

/-- The prescriber_comparison table, sorted ascending by brand_share. -/
def prescriberComparison (mp : Maps) (brand generic : UTable) : List PRow :=
  sortByShare (fun r => r.brand_share)
    ((mergePresc (meltPresc brand) (meltPresc generic)).map (pRow mp))

/-- The dictionary of tables returned by compare_brand_vs_generic. -/
structure CompareResult where
  segment_comparison : List SegRow
  region_summary : List DimRow
  age_summary : List DimRow
  gender_summary : List DimRow
  prescriber_comparison : List PRow
deriving DecidableEq, Repr

/-- compare_brand_vs_generic on two prepared unified frames. -/
def compare_brand_vs_generic (mp : Maps) (brand generic : UTable) : CompareResult :=
  let seg := segmentComparison mp brand generic
  { segment_comparison := seg
    region_summary := dimSummary SegRow.region seg
    age_summary := dimSummary SegRow.age seg
    gender_summary := dimSummary SegRow.sex seg
    prescriber_comparison := prescriberComparison mp brand generic }

/-! Helper lemmas about the aggregator. -/

/-- Sorting does not change membership. -/
lemma mem_sortByShare {key : α → FVal} {l : List α} {a : α} :
    a ∈ sortByShare key l ↔ a ∈ l :=
  (List.perm_insertionSort _ _).mem_iff

/-- Rows of segment_comparison are exactly the rows built from the merged
keys. -/
lemma mem_segmentComparison {mp : Maps} {brand generic : UTable} {r : SegRow} :
    r ∈ segmentComparison mp brand generic ↔
      ∃ k ∈ mergedKeys brand generic, segRow mp brand generic k = r := by
  unfold segmentComparison
  rw [mem_sortByShare, List.mem_map]

/-- Rows of prescriber_comparison are exactly the rows built from the
merged melted records. -/
lemma mem_prescriberComparison {mp : Maps} {brand generic : UTable} {r : PRow} :
    r ∈ prescriberComparison mp brand generic ↔
      ∃ m ∈ mergePresc (meltPresc brand) (meltPresc generic), pRow mp m = r := by
  unfold prescriberComparison
  rw [mem_sortByShare, List.mem_map]

/-- A division result with denominator zero is never a finite value, and
is NaN exactly when the numerator is zero too. -/
lemma fdiv_zero_denom (x : ℚ) :
    (∀ q : ℚ, fdiv x 0 ≠ FVal.val q) ∧ (x = 0 → fdiv x 0 = FVal.nan) := by
  unfold fdiv
  rcases eq_or_ne x 0 with h | h
  · subst h; simp
  · simp only [if_pos rfl, if_neg h]
    rcases lt_or_gt_of_ne h with hlt | hgt
    · rw [if_neg (not_lt.mpr hlt.le)]
      exact ⟨fun q => by simp, fun hx => absurd hx h⟩
    · rw [if_pos hgt]
      exact ⟨fun q => by simp, fun hx => absurd hx h⟩

/-! Concrete inputs used by the example scenario and the counterexamples. -/

/-- Empty lookup maps (label resolution falls back to the raw codes). -/
def noMaps : Maps := ⟨[], [], [], [], []⟩

/-- Brand source of the example scenario: one row, region 5, sex 1,
age 20, total 100, prescriber_A 60, prescriber_B 40. -/
def exBrand : UTable :=
  ⟨["prescriber_A", "prescriber_B"],
   [⟨Cell.str ("5"), Cell.str ("1"), Cell.str ("20"), 100, [60, 40]⟩]⟩

/-- Generic source of the example scenario: one row, same segment,
total 50, prescriber_A 50. -/
def exGeneric : UTable :=
  ⟨["prescriber_A"],
   [⟨Cell.str ("5"), Cell.str ("1"), Cell.str ("20"), 50, [50]⟩]⟩

/-- Brand source with one zero-volume segment. -/
def zeroBrand : UTable := ⟨[], [⟨Cell.str ("1"), Cell.str ("1"), Cell.str ("1"), 0, []⟩]⟩

/-- An empty generic source. -/
def zeroGeneric : UTable := ⟨[], []⟩

/-- The single segment row produced for the zero-volume segment. -/
def zeroSegRow : SegRow :=
  ⟨0, 0, 0, FVal.nan, Cell.str ("1"), Cell.str ("1"), Cell.str ("1")⟩

/-- C1, as stated, is false: on a zero-volume segment the share column
holds float NaN (0 divided by 0), not the sentinel 0. -/
theorem C1_counterexample :
    ¬ (∀ r ∈ (compare_brand_vs_generic noMaps zeroBrand zeroGeneric).segment_comparison,
        r.combined_total = 0 → r.brand_share = FVal.val 0) := by
  norm_num [compare_brand_vs_generic, segmentComparison, sortByShare, mergedKeys,
    groupKeys, groupTotal, segRow, mapFillna, astypeStr, lookupMap, fdiv,
    FVal.leB, SegKey.notNA, URow.key, zeroBrand, zeroGeneric, noMaps,
    List.insertionSort, List.orderedInsert, List.dedup, List.pwFilter, List.filter]
  decide

/-- C1 amended: in every segment row and every prescriber-comparison row
with combined_total equal to 0, brand_share is never a finite number; it
is float NaN whenever the brand side is also 0 (always the case for
non-negative volumes).  The sentinel-zero convention is applied only by
downstream consumers, not by compare_brand_vs_generic itself. -/
theorem C1_amended (mp : Maps) (brand generic : UTable) :
    (∀ r ∈ (compare_brand_vs_generic mp brand generic).segment_comparison,
        r.combined_total = 0 →
          (∀ q : ℚ, r.brand_share ≠ FVal.val q) ∧
            (r.brand_total = 0 → r.brand_share = FVal.nan)) ∧
    (∀ r ∈ (compare_brand_vs_generic mp brand generic).prescriber_comparison,
        r.combined_total = 0 →
          (∀ q : ℚ, r.brand_share ≠ FVal.val q) ∧
            (r.brand_boites = 0 → r.brand_share = FVal.nan)) := by
  constructor
  · intro r hr hc
    rw [show (compare_brand_vs_generic mp brand generic).segment_comparison
          = segmentComparison mp brand generic from rfl,
        mem_segmentComparison] at hr
    obtain ⟨k, _, hk⟩ := hr
    subst hk
    simp only [segRow] at hc ⊢
    rw [hc]
    exact fdiv_zero_denom _
  · intro r hr hc
    rw [show (compare_brand_vs_generic mp brand generic).prescriber_comparison
          = prescriberComparison mp brand generic from rfl,
        mem_prescriberComparison] at hr
    obtain ⟨m, _, hm⟩ := hr
    subst hm
    simp only [pRow] at hc ⊢
    rw [hc]
    exact fdiv_zero_denom _

/-- Witness for C1_amended: the zero-volume segment row is in the output,
has combined_total 0, and its share is not the value 0. -/
theorem C1_amended_witness :
    zeroSegRow ∈ (compare_brand_vs_generic noMaps zeroBrand zeroGeneric).segment_comparison
      ∧ zeroSegRow.combined_total = 0
      ∧ zeroSegRow.brand_share ≠ FVal.val 0 := by
  have hmem :
      zeroSegRow ∈ (compare_brand_vs_generic noMaps zeroBrand zeroGeneric).segment_comparison := by
    norm_num [compare_brand_vs_generic, segmentComparison, sortByShare, mergedKeys,
      groupKeys, groupTotal, segRow, mapFillna, astypeStr, lookupMap, fdiv,
      FVal.leB, SegKey.notNA, URow.key, zeroBrand, zeroGeneric, noMaps, zeroSegRow,
      List.insertionSort, List.orderedInsert, List.dedup, List.pwFilter, List.filter]
  have hcomb : zeroSegRow.combined_total = 0 := by norm_num [zeroSegRow]
  exact ⟨hmem, hcomb,
    ((C1_amended noMaps zeroBrand zeroGeneric).1 zeroSegRow hmem hcomb).1 0⟩

/-- C2: on the example scenario the aggregator returns exactly one
segment row with totals 100, 50, 150 and share 2/3 (within 0.0001 of
0.6667), and prescriber rows A (60, 50, 110, share 6/11, about 0.545) and
B (40, 0, 40, share 1). -/
theorem C2_example_scenario :
    ((compare_brand_vs_generic noMaps exBrand exGeneric).segment_comparison.map
        (fun r => (r.brand_total, r.generic_total, r.combined_total, r.brand_share)))
      = [(100, 50, 150, FVal.val (2/3))]
    ∧ |(2 : ℚ)/3 - 0.6667| ≤ 1/10000
    ∧ ((compare_brand_vs_generic noMaps exBrand exGeneric).prescriber_comparison.map
        (fun r => (r.prescriber, r.brand_boites, r.generic_boites, r.combined_total,
                   r.brand_share)))
      = [(Cell.str ("prescriber_A"), 60, 50, 110, FVal.val (6/11)),
         (Cell.str ("prescriber_B"), 40, 0, 40, FVal.val 1)]
    ∧ |(6 : ℚ)/11 - 0.545| ≤ 1/1000 := by
  refine ⟨?_, by norm_num [abs_le], ?_, by norm_num [abs_le]⟩
  · norm_num [compare_brand_vs_generic, segmentComparison, sortByShare, mergedKeys,
      groupKeys, groupTotal, segRow, mapFillna, astypeStr, lookupMap, fdiv,
      FVal.leB, SegKey.notNA, URow.key, exBrand, exGeneric, noMaps,
      List.insertionSort, List.orderedInsert, List.dedup, List.pwFilter, List.filter]
  · norm_num [compare_brand_vs_generic, prescriberComparison, sortByShare, mergePresc,
      meltPresc, pRow, mapFillna, astypeStr, lookupMap, fdiv,
      FVal.leB, exBrand, exGeneric, noMaps,
      List.insertionSort, List.orderedInsert, List.filter]

/-! Helper lemmas about group keys and fiberwise sums. -/

/-- Membership in the grouped keys of a table. -/
lemma mem_groupKeys {t : UTable} {k : SegKey} :
    k ∈ groupKeys t ↔ k.notNA ∧ ∃ r ∈ t.rows, r.key = k := by
  unfold groupKeys
  rw [List.mem_dedup, List.mem_filter, List.mem_map]
  simp only [decide_eq_true_eq]
  tauto

/-- The merged key list contains a key exactly when some side contains
it. -/
lemma mem_mergedKeys {brand generic : UTable} {k : SegKey} :
    k ∈ mergedKeys brand generic ↔ k ∈ groupKeys brand ∨ k ∈ groupKeys generic := by
  unfold mergedKeys
  rw [List.mem_append, List.mem_filter]
  simp only [decide_eq_true_eq]
  by_cases h : k ∈ groupKeys brand <;> tauto

/-- Every merged key has all three components present. -/
lemma mergedKeys_notNA {brand generic : UTable} {k : SegKey}
    (hk : k ∈ mergedKeys brand generic) : k.notNA := by
  rcases mem_mergedKeys.mp hk with h | h
  · exact (mem_groupKeys.mp h).1
  · exact (mem_groupKeys.mp h).1

/-- The merged key list has no duplicates. -/
lemma nodup_mergedKeys (brand generic : UTable) :
    (mergedKeys brand generic).Nodup := by
  unfold mergedKeys
  refine (List.nodup_dedup _).append ((List.nodup_dedup _).filter _) ?_
  rw [List.disjoint_left]
  intro k hk hk2
  rw [List.mem_filter, decide_eq_true_eq] at hk2
  exact hk2.2 hk

/-- Label resolution never introduces a missing value when the raw code
is present. -/
lemma mapFillna_ne_missing {m : KMap} {orig c : Cell} (h : orig ≠ Cell.missing) :
    mapFillna m orig c ≠ Cell.missing := by
  cases c with
  | str s =>
      rcases hlk : lookupMap m s with _ | v <;> simp [mapFillna, hlk, h]
  | missing => exact h
  | num q => exact h

/-- A list of zeros sums to zero. -/
lemma sum_map_eq_zero (l : List κ) (f : κ → ℚ) (h : ∀ j ∈ l, f j = 0) :
    (l.map f).sum = 0 := by
  induction l with
  | nil => simp
  | cons a t ih =>
      simp only [List.map_cons, List.sum_cons, h a (List.mem_cons_self a t)]
      rw [ih (fun j hj => h j (List.mem_cons_of_mem a hj))]
      simp

/-- Summing a map of pointwise sums splits. -/
lemma sum_map_add (l : List κ) (f g : κ → ℚ) :
    (l.map (fun a => f a + g a)).sum = (l.map f).sum + (l.map g).sum := by
  induction l with
  | nil => simp
  | cons a t ih => simp only [List.map_cons, List.sum_cons, ih]; ring

/-- Over a duplicate-free key list containing c, the indicator sum
collapses to its single hit. -/
lemma sum_map_ite_eq (keys : List κ) [DecidableEq κ] (hnd : keys.Nodup)
    (c : κ) (hc : c ∈ keys) (x : ℚ) :
    (keys.map (fun j => if c = j then x else 0)).sum = x := by
  induction keys with
  | nil => cases hc
  | cons a t ih =>
      rcases List.mem_cons.mp hc with h | h
      · subst h
        simp only [List.map_cons, List.sum_cons, if_pos rfl]
        rw [sum_map_eq_zero t _ (fun j hj => by
          rw [if_neg]
          rintro rfl
          exact (List.nodup_cons.mp hnd).1 hj)]
        simp
      · have hne : c ≠ a := by
          rintro rfl
          exact (List.nodup_cons.mp hnd).1 h
        simp only [List.map_cons, List.sum_cons, if_neg hne]
        rw [ih (List.nodup_cons.mp hnd).2 h]
        simp

/-- Fiberwise summation: summing the per-group sums over a duplicate-free
covering key list gives the total sum. -/
lemma sum_fibers [DecidableEq κ] (keys : List κ) (l : List α)
    (g : α → κ) (f : α → ℚ) (hnd : keys.Nodup) (hcov : ∀ a ∈ l, g a ∈ keys) :
    (keys.map (fun k => ((l.filter (fun a => decide (g a = k))).map f).sum)).sum
      = (l.map f).sum := by
  induction l with
  | nil => simp [sum_map_eq_zero]
  | cons a t ih =>
      have hga := hcov a (List.mem_cons_self a t)
      have hcovt : ∀ x ∈ t, g x ∈ keys := fun x hx => hcov x (List.mem_cons_of_mem a hx)
      have hstep :
          (keys.map (fun k => (((a :: t).filter (fun x => decide (g x = k))).map f).sum))
            = keys.map (fun k =>
                (if g a = k then f a else 0)
                  + ((t.filter (fun x => decide (g x = k))).map f).sum) := by
        apply List.map_congr_left
        intro k _
        by_cases h : g a = k
        · simp [List.filter_cons, h]
        · simp [List.filter_cons, h]
      rw [hstep, sum_map_add, ih hcovt, sum_map_ite_eq keys hnd (g a) hga]
      simp

/-! C4: outer-merge completeness. -/

/-- Brand source with a missing region code: groupby (dropna default)
silently drops the row, so its key reaches no segment row. -/
def naBrand : UTable :=
  ⟨[], [⟨Cell.missing, Cell.str ("1"), Cell.str ("20"), 100, []⟩]⟩

/-- C4, as stated, is false: a key triple with a missing component
appears in the brand input but in no row of the segment comparison
(groupby drops rows with NaN keys before the merge). -/
theorem C4_counterexample :
    (∃ r ∈ naBrand.rows, r.key = ⟨Cell.missing, Cell.str ("1"), Cell.str ("20")⟩)
      ∧ (compare_brand_vs_generic noMaps naBrand zeroGeneric).segment_comparison = [] := by
  constructor
  · exact ⟨⟨Cell.missing, Cell.str ("1"), Cell.str ("20"), 100, []⟩, by simp [naBrand], rfl⟩
  · norm_num [compare_brand_vs_generic, segmentComparison, sortByShare, mergedKeys,
      groupKeys, groupTotal, segRow, SegKey.notNA, URow.key, naBrand, zeroGeneric,
      List.insertionSort, List.dedup, List.pwFilter, List.filter]

/-- C4 amended: every key triple with no missing component that appears
in either input appears exactly once among the merged keys, and its
segment row is in the output table (keys with a missing component are
dropped by groupby before the merge). -/
theorem C4_amended (mp : Maps) (brand generic : UTable) (k : SegKey)
    (hna : k.notNA)
    (happ : (∃ r ∈ brand.rows, r.key = k) ∨ (∃ r ∈ generic.rows, r.key = k)) :
    (mergedKeys brand generic).count k = 1
      ∧ segRow mp brand generic k
          ∈ (compare_brand_vs_generic mp brand generic).segment_comparison := by
  have hmem : k ∈ mergedKeys brand generic := by
    rw [mem_mergedKeys]
    rcases happ with h | h
    · exact Or.inl (mem_groupKeys.mpr ⟨hna, h⟩)
    · exact Or.inr (mem_groupKeys.mpr ⟨hna, h⟩)
  refine ⟨List.count_eq_one_of_mem (nodup_mergedKeys brand generic) hmem, ?_⟩
  exact mem_segmentComparison.mpr ⟨k, hmem, rfl⟩

/-- Witness for C4_amended at the example scenario inputs. -/
theorem C4_amended_witness :
    (SegKey.notNA ⟨Cell.str ("5"), Cell.str ("1"), Cell.str ("20")⟩)
      ∧ (mergedKeys exBrand exGeneric).count ⟨Cell.str ("5"), Cell.str ("1"), Cell.str ("20")⟩ = 1 := by
  have hna : SegKey.notNA ⟨Cell.str ("5"), Cell.str ("1"), Cell.str ("20")⟩ := by
    refine ⟨?_, ?_, ?_⟩ <;> simp
  refine ⟨hna, ?_⟩
  exact (C4_amended noMaps exBrand exGeneric _ hna
    (Or.inl ⟨⟨Cell.str ("5"), Cell.str ("1"), Cell.str ("20"), 100, [60, 40]⟩,
      by simp [exBrand], rfl⟩)).1

/-! C5: rollup conservation. -/

/-- Every segment row satisfies the additive relation between its total
columns. -/
lemma segRow_combined (mp : Maps) (brand generic : UTable) {r : SegRow}
    (hr : r ∈ segmentComparison mp brand generic) :
    r.combined_total = r.brand_total + r.generic_total := by
  obtain ⟨k, _, hk⟩ := mem_segmentComparison.mp hr
  subst hk
  rfl

/-- Labels of segment rows are never missing. -/
lemma segRow_labels (mp : Maps) (brand generic : UTable) {r : SegRow}
    (hr : r ∈ segmentComparison mp brand generic) :
    r.region ≠ Cell.missing ∧ r.sex ≠ Cell.missing ∧ r.age ≠ Cell.missing := by
  obtain ⟨k, hkm, hk⟩ := mem_segmentComparison.mp hr
  obtain ⟨h1, h2, h3⟩ := mergedKeys_notNA hkm
  subst hk
  exact ⟨mapFillna_ne_missing h1, mapFillna_ne_missing h2, mapFillna_ne_missing h3⟩

/-- A one-dimensional rollup conserves the combined volume, provided the
grouping labels are never missing (so groupby drops nothing). -/
lemma dimSummary_conserves (proj : SegRow → Cell) (seg : List SegRow)
    (hnm : ∀ r ∈ seg, proj r ≠ Cell.missing)
    (hcg : ∀ r ∈ seg, r.combined_total = r.brand_total + r.generic_total) :
    ((dimSummary proj seg).map DimRow.combined_total).sum
      = (seg.map SegRow.combined_total).sum := by
  have hsort :
      ((dimSummary proj seg).map DimRow.combined_total).sum
        = (((dimKeys proj seg).map (dimRowFor proj seg)).map DimRow.combined_total).sum :=
    ((List.perm_insertionSort _ _).map DimRow.combined_total).sum_eq
  rw [hsort, List.map_map]
  have hnd : (dimKeys proj seg).Nodup := List.nodup_dedup _
  have hcov : ∀ r ∈ seg, proj r ∈ dimKeys proj seg := by
    intro r hr
    rw [dimKeys, List.mem_dedup, List.mem_filter]
    exact ⟨List.mem_map_of_mem proj hr, by simpa using hnm r hr⟩
  have h1 : DimRow.combined_total ∘ dimRowFor proj seg
      = fun k =>
          ((seg.filter (fun r => decide (proj r = k))).map SegRow.brand_total).sum
            + ((seg.filter (fun r => decide (proj r = k))).map SegRow.generic_total).sum :=
    rfl
  rw [h1, sum_map_add, sum_fibers (dimKeys proj seg) seg proj SegRow.brand_total hnd hcov,
    sum_fibers (dimKeys proj seg) seg proj SegRow.generic_total hnd hcov, ← sum_map_add]
  exact congrArg List.sum (List.map_congr_left (fun r hr => (hcg r hr).symm))

/-- C5: for each of the three one-dimensional summaries, the sum of
combined_total over all summary rows equals the sum of combined_total
over all segment rows (collisions of distinct codes on one label are
summed inside one group, leaving the total unchanged). -/
theorem C5_rollup_conservation (mp : Maps) (brand generic : UTable) :
    (((compare_brand_vs_generic mp brand generic).region_summary.map
        DimRow.combined_total).sum
      = ((compare_brand_vs_generic mp brand generic).segment_comparison.map
          SegRow.combined_total).sum)
    ∧ (((compare_brand_vs_generic mp brand generic).age_summary.map
        DimRow.combined_total).sum
      = ((compare_brand_vs_generic mp brand generic).segment_comparison.map
          SegRow.combined_total).sum)
    ∧ (((compare_brand_vs_generic mp brand generic).gender_summary.map
        DimRow.combined_total).sum
      = ((compare_brand_vs_generic mp brand generic).segment_comparison.map
          SegRow.combined_total).sum) := by
  refine ⟨?_, ?_, ?_⟩
  · exact dimSummary_conserves SegRow.region (segmentComparison mp brand generic)
      (fun r hr => (segRow_labels mp brand generic hr).1)
      (fun r hr => segRow_combined mp brand generic hr)
  · exact dimSummary_conserves SegRow.age (segmentComparison mp brand generic)
      (fun r hr => (segRow_labels mp brand generic hr).2.2)
      (fun r hr => segRow_combined mp brand generic hr)
  · exact dimSummary_conserves SegRow.sex (segmentComparison mp brand generic)
      (fun r hr => (segRow_labels mp brand generic hr).2.1)
      (fun r hr => segRow_combined mp brand generic hr)

/-!
Model of the raw wide tables handled by the normalizer
(src/pharma/utils/loaders.py, load_unified) and by prepare_unified
(src/pharma/backend/execute_query.py).  A table is its ordered column
list plus one cell-valued function per row; a row function is only
meaningful at names in the column list, and the operations below never
read any other name.
-/

/-- A raw dataframe: column names in order, rows as functions from
column name to cell. -/
structure Table where
  cols : List String
  rows : List (String → Cell)

/-- One column of a table as a list of cells. -/
def Table.col (t : Table) (name : String) : List Cell :=
  t.rows.map (fun r => r name)

/-- Column assignment df[name] = series, the series computed rowwise
from the frame itself: overwrites in place when the column exists,
otherwise appends it at the end. -/
def Table.withCol (t : Table) (name : String) (f : (String → Cell) → Cell) : Table :=
  { cols := if name ∈ t.cols then t.cols else t.cols ++ [name]
    rows := t.rows.map (fun r n => if n = name then f r else r n) }

/-- df.drop(columns=names, errors=ignore): removes the listed columns. -/
def Table.dropCols (t : Table) (names : List String) : Table :=
  { cols := t.cols.filter (fun c => decide (c ∉ names))
    rows := t.rows }

/-- df.rename(columns=mapping): relabels the column list; a row answers
a new name with the value of the first old column renamed to it. -/
def Table.renameCols (t : Table) (ρ : String → String) : Table :=
  { cols := t.cols.map ρ
    rows := t.rows.map (fun r n => r ((t.cols.find? (fun c => decide (ρ c = n))).getD n)) }

/-- pd.to_numeric(errors=coerce) on one cell: parsed numbers pass
through, everything unparsable or missing becomes NaN. -/
def toNumericCoerce : Cell → Option ℚ
  | Cell.num q => some q
  | _ => none

/-- astype(int) on a float value: truncation toward zero. -/
def astypeInt (q : ℚ) : ℤ := if 0 ≤ q then ⌊q⌋ else ⌈q⌉

/-- The numeric-coercion policy of the loaders, applied to total_boites
and to every prescriber column:
pd.to_numeric(errors=coerce).fillna(0).astype(int). -/
def coerceCell (c : Cell) : ℤ := astypeInt ((toNumericCoerce c).getD 0)

/-- The coerced cell, stored back into the frame. -/
def coerceNumeric (c : Cell) : Cell := Cell.num ((coerceCell c : ℤ) : ℚ)

/-- Cellwise numeric coercion of the named columns. -/
def Table.coerceCols (t : Table) (names : List String) : Table :=
  { cols := t.cols
    rows := t.rows.map (fun r n => if n ∈ names then coerceNumeric (r n) else r n) }

/-- The fixed key column set of load_unified. -/
def key_cols : List String :=
  ["BEN_REG", "sexe", "age", "CIP13", "GEN_NUM", "total_boites"]

/-- The prescriber columns: every column not in the key set. -/
def prescColsOf (t : Table) : List String :=
  t.cols.filter (fun c => decide (c ∉ key_cols))

/-- The raw code columns dropped at the end of load_unified. -/
def dropped_cols : List String := ["BEN_REG", "sexe", "age", "CIP13", "GEN_NUM"]

/-- The product display column chosen by the key column. -/
def displayOf (key_col : String) : String :=
  if key_col = "GEN_NUM" then ("Generic") else ("Medication")

/-- The coerced and label-resolved frame before any drop or rename.
The two coercion statements of the source (total_boites, then the
prescriber block) are a single cellwise pass over disjoint column sets
and are merged into one coerceCols. -/
def labeled (mp : Maps) (t : Table) (key_col : String) : Table :=
  let t1 := t.coerceCols (("total_boites") :: prescColsOf t)
  let t2 := ((t1.withCol ("Region")
      (fun r => mapFillna mp.region (r ("BEN_REG")) (r ("BEN_REG")))).withCol ("Sex")
      (fun r => mapFillna mp.sex (r ("sexe")) (r ("sexe")))).withCol ("Age")
      (fun r => mapFillna mp.age (r ("age")) (r ("age")))
  if key_col = "GEN_NUM" then t2.withCol ("Generic") (fun r => r ("GEN_NUM"))
  else t2.withCol ("Medication") (fun r => mapFillna mp.cpi (r ("CIP13")) (r ("CIP13")))

/-- The frame after the raw code columns are dropped. -/
def droppedT (mp : Maps) (t : Table) (key_col : String) : Table :=
  (labeled mp t key_col).dropCols dropped_cols

/-- The core column set excluded from the prescriber rename. -/
def coreCols (display : String) : List String :=
  [("Region"), ("Sex"), ("Age"), display, ("total_boites")]

/-- The raw prescriber column names at rename time. -/
def rawPres (mp : Maps) (t : Table) (key_col : String) : List String :=
  (droppedT mp t key_col).cols.filter
    (fun c => decide (c ∉ coreCols (displayOf key_col)))

/-- The rename mapping applied to the prescriber columns. -/
def renameFn (mp : Maps) (t : Table) (key_col : String) : String → String :=
  fun c => if c ∈ rawPres mp t key_col then lookupD mp.presc c else c

/-- The table, display column and prescriber list built by load_unified
once all required columns exist. -/
def buildOut (mp : Maps) (t : Table) (key_col : String) :
    Table × String × List String :=
  ((droppedT mp t key_col).renameCols (renameFn mp t key_col),
   displayOf key_col,
   (rawPres mp t key_col).map (fun c => lookupD mp.presc c))

/-- load_unified from src/pharma/utils/loaders.py.  The path argument is
replaced by the already-read raw table (read_csv with dtype=str) and
load_maps by the maps parameter.  A column access that would raise
KeyError surfaces as an error result, in source order: the total_boites
coercion, the three demographic map lines, then the product display
line chosen by key_col. -/
def load_unified (mp : Maps) (t : Table) (key_col : String) :
    Except String (Table × String × List String) :=
  if "total_boites" ∉ t.cols then Except.error ("KeyError: total_boites")
  else if "BEN_REG" ∉ t.cols then Except.error ("KeyError: BEN_REG")
  else if "sexe" ∉ t.cols then Except.error ("KeyError: sexe")
  else if "age" ∉ t.cols then Except.error ("KeyError: age")
  else if key_col = "GEN_NUM" then
    if "GEN_NUM" ∉ t.cols then Except.error ("KeyError: GEN_NUM")
    else Except.ok (buildOut mp t key_col)
  else
    if "CIP13" ∉ t.cols then Except.error ("KeyError: CIP13")
    else Except.ok (buildOut mp t key_col)

/-- prepare_unified from execute_query.py: rename the product code
column to product_code and add the product_type column; raise KeyError
when neither CIP13 nor GEN_NUM exists. -/
def prepare_unified (t : Table) (product_type : String) : Except String Table :=
  if "CIP13" ∈ t.cols then
    Except.ok ((t.renameCols
      (fun c => if c = "CIP13" then ("product_code") else c)).withCol
        ("product_type") (fun _ => Cell.str product_type))
  else if "GEN_NUM" ∈ t.cols then
    Except.ok ((t.renameCols
      (fun c => if c = "GEN_NUM" then ("product_code") else c)).withCol
        ("product_type") (fun _ => Cell.str product_type))
  else Except.error ("No product code column found (CIP13 or GEN_NUM)")

/-- The label and display columns introduced by the normalizer. -/
def label_cols : List String := ["Region", "Sex", "Age", "Generic", "Medication"]

/-- Names a real extract and the prescriber mapping never use as data
columns or as prescriber display labels. -/
def reserved_cols : List String := label_cols ++ key_cols

/-- Sanity conditions on a raw extract and the prescriber mapping: the
source columns are distinct CSV headers, none of them collides with a
label column the normalizer adds, and no prescriber display label
collides with a reserved name. -/
structure CleanInput (mp : Maps) (t : Table) : Prop where
  nodup : t.cols.Nodup
  noLabels : ∀ c ∈ t.cols, c ∉ label_cols
  goodRenames : ∀ c ∈ t.cols, c ∉ key_cols → lookupD mp.presc c ∉ reserved_cols

/-! Characterization of the normalizer output. -/

/-- Pointwise description of one labeled row, mirroring the name checks
of the assignment steps from last to first. -/
def labRow (mp : Maps) (t : Table) (key_col : String) (r : String → Cell) : String → Cell :=
  fun n =>
    if n = displayOf key_col then
      (if key_col = "GEN_NUM" then r ("GEN_NUM")
       else mapFillna mp.cpi (r ("CIP13")) (r ("CIP13")))
    else if n = "Age" then mapFillna mp.age (r ("age")) (r ("age"))
    else if n = "Sex" then mapFillna mp.sex (r ("sexe")) (r ("sexe"))
    else if n = "Region" then mapFillna mp.region (r ("BEN_REG")) (r ("BEN_REG"))
    else if n ∈ ("total_boites") :: prescColsOf t then coerceNumeric (r n)
    else r n

/-- A key column is never treated as a prescriber column. -/
lemma not_mem_prescColsOf {c : String} (t : Table) (h : c ∈ key_cols) :
    c ∉ prescColsOf t := by
  intro hmem
  rw [prescColsOf, List.mem_filter, decide_eq_true_eq] at hmem
  exact hmem.2 h

/-- The rows of the labeled frame are the input rows transformed by
labRow. -/
lemma labeled_rows (mp : Maps) (t : Table) (key_col : String) :
    (labeled mp t key_col).rows = t.rows.map (labRow mp t key_col) := by
  have hg : ("GEN_NUM" : String) ∉ prescColsOf t :=
    not_mem_prescColsOf t (by simp [key_cols])
  have hc : ("CIP13" : String) ∉ prescColsOf t :=
    not_mem_prescColsOf t (by simp [key_cols])
  have hb : ("BEN_REG" : String) ∉ prescColsOf t :=
    not_mem_prescColsOf t (by simp [key_cols])
  have hs : ("sexe" : String) ∉ prescColsOf t :=
    not_mem_prescColsOf t (by simp [key_cols])
  have ha : ("age" : String) ∉ prescColsOf t :=
    not_mem_prescColsOf t (by simp [key_cols])
  by_cases hk : key_col = "GEN_NUM" <;>
    · simp only [labeled, Table.coerceCols, Table.withCol, List.map_map, hk,
        if_pos, if_neg, ite_true, ite_false, displayOf]
      apply List.map_congr_left
      intro r _
      funext n
      simp only [Function.comp, labRow, displayOf, hk, ite_true, ite_false]
      by_cases h1 : n = "Generic" <;> by_cases h2 : n = "Medication" <;>
        by_cases h3 : n = "Age" <;> by_cases h4 : n = "Sex" <;>
        by_cases h5 : n = "Region" <;>
        simp_all [hg, hc, hb, hs, ha]

/-- The display column is one of the label columns. -/
lemma displayOf_mem_label_cols (key_col : String) : displayOf key_col ∈ label_cols := by
  unfold displayOf
  by_cases h : key_col = "GEN_NUM" <;> simp [h, label_cols]

/-- The core columns are all reserved names. -/
lemma coreCols_subset_reserved (key_col : String) :
    ∀ n ∈ coreCols (displayOf key_col), n ∈ reserved_cols := by
  intro n hn
  have hn2 : n = "Region" ∨ n = "Sex" ∨ n = "Age" ∨ n = displayOf key_col
      ∨ n = "total_boites" := by simpa [coreCols] using hn
  rcases hn2 with h | h | h | h | h
  · simp [reserved_cols, label_cols, h]
  · simp [reserved_cols, label_cols, h]
  · simp [reserved_cols, label_cols, h]
  · rw [h]; exact List.mem_append_left _ (displayOf_mem_label_cols key_col)
  · simp [reserved_cols, key_cols, h]

/-- The column list of the labeled frame: the four label columns are
appended, none of them colliding with a source column. -/
lemma labeled_cols (mp : Maps) (t : Table) (key_col : String)
    (hnl : ∀ c ∈ t.cols, c ∉ label_cols) :
    (labeled mp t key_col).cols
      = t.cols ++ [("Region"), ("Sex"), ("Age"), displayOf key_col] := by
  have hR : ("Region" : String) ∉ t.cols := fun h => hnl _ h (by simp [label_cols])
  have hS : ("Sex" : String) ∉ t.cols := fun h => hnl _ h (by simp [label_cols])
  have hA : ("Age" : String) ∉ t.cols := fun h => hnl _ h (by simp [label_cols])
  have hG : ("Generic" : String) ∉ t.cols := fun h => hnl _ h (by simp [label_cols])
  have hM : ("Medication" : String) ∉ t.cols := fun h => hnl _ h (by simp [label_cols])
  by_cases hk : key_col = "GEN_NUM" <;>
    simp [labeled, Table.withCol, Table.coerceCols, displayOf, hk, hR, hS, hA, hG, hM]

/-- The rows of the dropped frame are still the labRow transforms. -/
lemma droppedT_rows (mp : Maps) (t : Table) (key_col : String) :
    (droppedT mp t key_col).rows = t.rows.map (labRow mp t key_col) := by
  rw [droppedT, Table.dropCols, labeled_rows]

/-- The column list after the drop: the source columns without the raw
codes, then the label columns. -/
lemma droppedT_cols (mp : Maps) (t : Table) (key_col : String)
    (hnl : ∀ c ∈ t.cols, c ∉ label_cols) :
    (droppedT mp t key_col).cols
      = t.cols.filter (fun c => decide (c ∉ dropped_cols))
          ++ [("Region"), ("Sex"), ("Age"), displayOf key_col] := by
  rw [droppedT, Table.dropCols, labeled_cols mp t key_col hnl, List.filter_append]
  by_cases hk : key_col = "GEN_NUM" <;>
    simp [displayOf, hk, dropped_cols]

/-- Under a clean input the prescriber columns at rename time are
exactly the prescriber columns of the source. -/
lemma rawPres_eq (mp : Maps) (t : Table) (key_col : String)
    (hnl : ∀ c ∈ t.cols, c ∉ label_cols) :
    rawPres mp t key_col = prescColsOf t := by
  rw [rawPres, droppedT_cols mp t key_col hnl, List.filter_append, List.filter_filter]
  have h2 :
      List.filter (fun c => decide (c ∉ coreCols (displayOf key_col)))
        [("Region"), ("Sex"), ("Age"), displayOf key_col] = [] := by
    simp [coreCols]
  rw [h2, List.append_nil, prescColsOf]
  apply List.filter_congr
  intro c hc
  have hcl := hnl c hc
  simp only [Bool.and_eq_decide, decide_eq_decide]
  constructor
  · rintro ⟨h1, h3⟩ hk
    rcases (by simpa [key_cols] using hk : c = "BEN_REG" ∨ c = "sexe" ∨ c = "age"
        ∨ c = "CIP13" ∨ c = "GEN_NUM" ∨ c = "total_boites") with h | h | h | h | h | h
    · exact h3 (by simp [dropped_cols, h])
    · exact h3 (by simp [dropped_cols, h])
    · exact h3 (by simp [dropped_cols, h])
    · exact h3 (by simp [dropped_cols, h])
    · exact h3 (by simp [dropped_cols, h])
    · exact h1 (by simp [coreCols, h])
  · intro hk
    constructor
    · intro hcore
      rcases (by simpa [coreCols] using hcore : c = "Region" ∨ c = "Sex" ∨ c = "Age"
          ∨ c = displayOf key_col ∨ c = "total_boites") with h | h | h | h | h
      · exact hcl (by simp [label_cols, h])
      · exact hcl (by simp [label_cols, h])
      · exact hcl (by simp [label_cols, h])
      · exact hcl (h ▸ displayOf_mem_label_cols key_col)
      · exact hk (by simp [key_cols, h])
    · intro hdrop
      apply hk
      rcases (by simpa [dropped_cols] using hdrop : c = "BEN_REG" ∨ c = "sexe"
          ∨ c = "age" ∨ c = "CIP13" ∨ c = "GEN_NUM") with h | h | h | h | h <;>
        simp [key_cols, h]

/-- Every dropped code column is a key column. -/
lemma dropped_subset_key : ∀ c ∈ dropped_cols, c ∈ key_cols := by
  intro c hc
  rcases (by simpa [dropped_cols] using hc : c = "BEN_REG" ∨ c = "sexe" ∨ c = "age"
      ∨ c = "CIP13" ∨ c = "GEN_NUM") with h | h | h | h | h <;> simp [key_cols, h]

/-- After the rename, looking up a core name finds that very column (or
nothing, in which case the default is the name itself). -/
lemma sigma_core (mp : Maps) (t : Table) (key_col : String)
    (hclean : CleanInput mp t) {n : String}
    (hn : n ∈ coreCols (displayOf key_col)) :
    (((droppedT mp t key_col).cols.find?
        (fun c => decide (renameFn mp t key_col c = n))).getD n) = n := by
  rcases hfind : (droppedT mp t key_col).cols.find?
      (fun c => decide (renameFn mp t key_col c = n)) with _ | c
  · rfl
  · have hpc := List.find?_some hfind
    rw [decide_eq_true_eq] at hpc
    simp only [Option.getD_some]
    by_cases hcr : c ∈ rawPres mp t key_col
    · exfalso
      rw [renameFn] at hpc
      rw [if_pos hcr] at hpc
      rw [rawPres_eq mp t key_col hclean.noLabels, prescColsOf, List.mem_filter,
        decide_eq_true_eq] at hcr
      exact (hclean.goodRenames c hcr.1 hcr.2) (hpc ▸ coreCols_subset_reserved key_col n hn)
    · rw [renameFn] at hpc
      rw [if_neg hcr] at hpc
      exact hpc

/-- The output table restricted to a core column holds the labRow values
of the source rows. -/
lemma buildOut_col_core (mp : Maps) (t : Table) (key_col : String)
    (hclean : CleanInput mp t) {n : String}
    (hn : n ∈ coreCols (displayOf key_col)) :
    (buildOut mp t key_col).1.col n
      = t.rows.map (fun r => labRow mp t key_col r n) := by
  have hσ := sigma_core mp t key_col hclean hn
  unfold buildOut Table.renameCols Table.col
  simp only [List.map_map]
  rw [droppedT_rows]
  simp only [List.map_map]
  apply List.map_congr_left
  intro r _
  simp only [Function.comp]
  rw [hσ]

/-- labRow at the total column is the coerced total. -/
lemma labRow_total (mp : Maps) (t : Table) (key_col : String) (r : String → Cell) :
    labRow mp t key_col r ("total_boites") = coerceNumeric (r ("total_boites")) := by
  by_cases hk : key_col = "GEN_NUM" <;> simp [labRow, displayOf, hk]

/-- labRow at the Region column is the resolved region label. -/
lemma labRow_region (mp : Maps) (t : Table) (key_col : String) (r : String → Cell) :
    labRow mp t key_col r ("Region")
      = mapFillna mp.region (r ("BEN_REG")) (r ("BEN_REG")) := by
  by_cases hk : key_col = "GEN_NUM" <;> simp [labRow, displayOf, hk]

/-- labRow at the display column is the product display value. -/
lemma labRow_display (mp : Maps) (t : Table) (key_col : String) (r : String → Cell) :
    labRow mp t key_col r (displayOf key_col)
      = if key_col = "GEN_NUM" then r ("GEN_NUM")
        else mapFillna mp.cpi (r ("CIP13")) (r ("CIP13")) := by
  simp [labRow]

/-- labRow at a prescriber column is the coerced prescriber count. -/
lemma labRow_presc (mp : Maps) (t : Table) (key_col : String) (r : String → Cell)
    {c : String} (hc : c ∈ prescColsOf t) (hcl : c ∉ label_cols) :
    labRow mp t key_col r c = coerceNumeric (r c) := by
  have h1 : c ≠ displayOf key_col := fun h => hcl (h ▸ displayOf_mem_label_cols key_col)
  have h2 : c ≠ "Age" := fun h => hcl (by simp [label_cols, h])
  have h3 : c ≠ "Sex" := fun h => hcl (by simp [label_cols, h])
  have h4 : c ≠ "Region" := fun h => hcl (by simp [label_cols, h])
  simp [labRow, h1, h2, h3, h4, List.mem_cons, Or.inr hc]

/-- Every returned prescriber name corresponds to a source prescriber
column whose coerced values it carries in the output. -/
lemma buildOut_col_presc (mp : Maps) (t : Table) (key_col : String)
    (hclean : CleanInput mp t) {n : String}
    (hn : n ∈ (buildOut mp t key_col).2.2) :
    ∃ c ∈ prescColsOf t, lookupD mp.presc c = n ∧
      (buildOut mp t key_col).1.col n = t.rows.map (fun r => coerceNumeric (r c)) := by
  obtain ⟨c0, hc0, hlk⟩ := List.mem_map.mp hn
  have hraw := rawPres_eq mp t key_col hclean.noLabels
  have hc0p : c0 ∈ prescColsOf t := hraw ▸ hc0
  have hc0t : c0 ∈ t.cols ∧ c0 ∉ key_cols := by
    have h := hc0p
    rw [prescColsOf, List.mem_filter, decide_eq_true_eq] at h
    exact h
  have hnres : n ∉ reserved_cols := hlk ▸ hclean.goodRenames c0 hc0t.1 hc0t.2
  have hc0d : c0 ∈ (droppedT mp t key_col).cols := by
    rw [droppedT_cols mp t key_col hclean.noLabels]
    apply List.mem_append_left
    rw [List.mem_filter, decide_eq_true_eq]
    exact ⟨hc0t.1, fun hd => hc0t.2 (dropped_subset_key c0 hd)⟩
  have hp0 : renameFn mp t key_col c0 = n := by
    rw [renameFn, if_pos hc0]
    exact hlk
  have hsome : ((droppedT mp t key_col).cols.find?
      (fun c => decide (renameFn mp t key_col c = n))).isSome :=
    List.find?_isSome.mpr ⟨c0, hc0d, by rw [decide_eq_true_eq]; exact hp0⟩
  obtain ⟨c, hfind⟩ := Option.isSome_iff_exists.mp hsome
  have hpc := List.find?_some hfind
  rw [decide_eq_true_eq] at hpc
  have hcd := List.mem_of_find?_eq_some hfind
  have hcr : c ∈ rawPres mp t key_col := by
    by_contra hnr
    rw [renameFn] at hpc
    rw [if_neg hnr] at hpc
    subst hpc
    rw [droppedT_cols mp t key_col hclean.noLabels] at hcd
    rcases List.mem_append.mp hcd with h | h
    · rw [List.mem_filter, decide_eq_true_eq] at h
      have hck : c ∈ key_cols := by
        by_contra hk
        apply hnr
        rw [hraw, prescColsOf, List.mem_filter, decide_eq_true_eq]
        exact ⟨h.1, hk⟩
      exact hnres (List.mem_append_right _ hck)
    · apply hnres
      rcases (by simpa using h : c = "Region" ∨ c = "Sex" ∨ c = "Age"
          ∨ c = displayOf key_col) with h1 | h1 | h1 | h1
      · exact List.mem_append_left _ (by simp [label_cols, h1])
      · exact List.mem_append_left _ (by simp [label_cols, h1])
      · exact List.mem_append_left _ (by simp [label_cols, h1])
      · exact List.mem_append_left _ (h1 ▸ displayOf_mem_label_cols key_col)
  have hcp : c ∈ prescColsOf t := hraw ▸ hcr
  have hct : c ∈ t.cols ∧ c ∉ key_cols := by
    have h := hcp
    rw [prescColsOf, List.mem_filter, decide_eq_true_eq] at h
    exact h
  refine ⟨c, hcp, ?_, ?_⟩
  · rw [renameFn] at hpc
    rw [if_pos hcr] at hpc
    exact hpc
  · unfold buildOut Table.renameCols Table.col
    simp only [List.map_map]
    rw [droppedT_rows]
    simp only [List.map_map]
    apply List.map_congr_left
    intro r _
    simp only [Function.comp]
    rw [hfind]
    simp only [Option.getD_some]
    exact labRow_presc mp t key_col r hcp (hclean.noLabels c hct.1)

/-- A successful load_unified returns exactly the buildOut result. -/
lemma load_unified_ok {mp : Maps} {t : Table} {key_col : String}
    {res : Table × String × List String}
    (h : load_unified mp t key_col = Except.ok res) : res = buildOut mp t key_col := by
  unfold load_unified at h
  split_ifs at h <;> first
    | exact Except.noConfusion h
    | exact (Except.ok.inj h).symm

/-- The coercion policy yields a non-negative integer whenever the cell
does not parse to a negative number. -/
lemma coerceCell_nonneg {c : Cell} (h : ∀ q, c = Cell.num q → 0 ≤ q) :
    0 ≤ coerceCell c := by
  cases c with
  | num q =>
      have hq := h q rfl
      simp only [coerceCell, toNumericCoerce, Option.getD_some, astypeInt, if_pos hq]
      exact Int.floor_nonneg.mpr hq
  | missing => simp [coerceCell, toNumericCoerce, astypeInt]
  | str s => simp [coerceCell, toNumericCoerce, astypeInt]

/-! C3: coerced numeric columns. -/

/-- A raw table with a negative total_boites value. -/
def negTable : Table :=
  ⟨["BEN_REG", "sexe", "age", "CIP13", "total_boites"],
   [fun n => if n = "total_boites" then Cell.num (-5) else Cell.str ("1")]⟩

/-- The clean-input conditions hold for negTable with empty maps. -/
lemma negTable_clean : CleanInput noMaps negTable := by
  refine ⟨by decide, by decide, ?_⟩
  intro c hc hk
  exfalso
  rcases (by simpa [negTable] using hc : c = "BEN_REG" ∨ c = "sexe" ∨ c = "age"
      ∨ c = "CIP13" ∨ c = "total_boites") with h | h | h | h | h <;>
    exact hk (by simp [key_cols, h])

/-- C3, as stated, is false: a total_boites cell parsing to a negative
number is kept negative by the coercion, not clamped to zero. -/
theorem C3_counterexample :
    ¬ (∀ out : Table, ∀ d : String, ∀ ps : List String,
        load_unified noMaps negTable ("CIP13") = Except.ok (out, d, ps) →
        ∀ x ∈ out.col ("total_boites"), ∃ z : ℤ, x = Cell.num (z : ℚ) ∧ 0 ≤ z) := by
  intro h
  have hok : load_unified noMaps negTable ("CIP13")
      = Except.ok (buildOut noMaps negTable ("CIP13")) := by
    unfold load_unified
    simp [negTable]
  have hcol : (buildOut noMaps negTable ("CIP13")).1.col ("total_boites")
      = [Cell.num (-5)] := by
    rw [buildOut_col_core noMaps negTable ("CIP13") negTable_clean
      (by simp [coreCols])]
    have : negTable.rows = [fun n => if n = "total_boites" then Cell.num (-5)
        else Cell.str ("1")] := rfl
    rw [this, List.map_cons, List.map_nil, labRow_total]
    simp only [if_pos rfl, ite_true, coerceNumeric, coerceCell, toNumericCoerce,
      Option.getD_some, astypeInt]
    rw [if_neg (by norm_num : ¬ (0 : ℚ) ≤ -5)]
    rw [show ((-5 : ℚ)) = (((-5 : ℤ)) : ℚ) from by norm_num, Int.ceil_intCast]
  obtain ⟨z, hz, hz0⟩ := h (buildOut noMaps negTable ("CIP13")).1
    (buildOut noMaps negTable ("CIP13")).2.1
    (buildOut noMaps negTable ("CIP13")).2.2 hok (Cell.num (-5)) (by rw [hcol]; simp)
  have : (z : ℚ) = -5 := by
    have := hz
    rwa [Cell.num.injEq, eq_comm] at this
  have hz5 : z = -5 := by exact_mod_cast this
  rw [hz5] at hz0
  norm_num at hz0

/-- C3 amended: the coercion clamps nothing: outputs are non-negative
integers provided no numeric cell parses to a negative value, and every
unparsable or missing cell becomes the integer 0. -/
theorem C3_amended (mp : Maps) (t : Table) (key_col : String)
    (out : Table) (d : String) (ps : List String)
    (hclean : CleanInput mp t)
    (hok : load_unified mp t key_col = Except.ok (out, d, ps))
    (hnn : ∀ r ∈ t.rows, ∀ c ∈ ("total_boites") :: prescColsOf t,
      ∀ q, r c = Cell.num q → 0 ≤ q) :
    (∀ x ∈ out.col ("total_boites"), ∃ z : ℤ, x = Cell.num (z : ℚ) ∧ 0 ≤ z)
    ∧ (∀ n ∈ ps, ∀ x ∈ out.col n, ∃ z : ℤ, x = Cell.num (z : ℚ) ∧ 0 ≤ z)
    ∧ (∀ c : Cell, toNumericCoerce c = none → coerceNumeric c = Cell.num 0) := by
  have hres := load_unified_ok hok
  have hout : out = (buildOut mp t key_col).1 := congrArg Prod.fst hres
  have hps : ps = (buildOut mp t key_col).2.2 := congrArg (fun p => p.2.2) hres
  refine ⟨?_, ?_, ?_⟩
  · intro x hx
    rw [hout, buildOut_col_core mp t key_col hclean (by simp [coreCols])] at hx
    obtain ⟨r, hr, hval⟩ := List.mem_map.mp hx
    rw [labRow_total] at hval
    refine ⟨coerceCell (r ("total_boites")), hval.symm, ?_⟩
    exact coerceCell_nonneg (hnn r hr _ (List.mem_cons_self _ _))
  · intro n hn x hx
    rw [hps] at hn
    obtain ⟨c, hc, _, hcol⟩ := buildOut_col_presc mp t key_col hclean hn
    rw [hout, hcol] at hx
    obtain ⟨r, hr, hval⟩ := List.mem_map.mp hx
    refine ⟨coerceCell (r c), hval.symm, ?_⟩
    exact coerceCell_nonneg (hnn r hr c (List.mem_cons_of_mem _ hc))
  · intro c hc
    simp [coerceNumeric, coerceCell, hc, astypeInt]

/-- Witness for C3_amended on a small concrete table with an unparsable
prescriber cell. -/
def okTable : Table :=
  ⟨["BEN_REG", "sexe", "age", "CIP13", "total_boites", "01"],
   [fun n => if n = "total_boites" then Cell.num 7
     else if n = "01" then Cell.str ("oops") else Cell.str ("1")]⟩

/-- The clean-input conditions hold for okTable with empty maps. -/
lemma okTable_clean : CleanInput noMaps okTable := by
  refine ⟨by decide, by decide, ?_⟩
  intro c hc hk
  rcases (by simpa [okTable] using hc : c = "BEN_REG" ∨ c = "sexe" ∨ c = "age"
      ∨ c = "CIP13" ∨ c = "total_boites" ∨ c = "01") with h | h | h | h | h | h
  · exact absurd (by simp [key_cols, h]) hk
  · exact absurd (by simp [key_cols, h]) hk
  · exact absurd (by simp [key_cols, h]) hk
  · exact absurd (by simp [key_cols, h]) hk
  · exact absurd (by simp [key_cols, h]) hk
  · subst h
    simp [lookupD, lookupMap, noMaps, reserved_cols, label_cols, key_cols]

/-- Witness for C3_amended: the hypotheses hold at okTable and the
conclusion applies to it. -/
theorem C3_amended_witness :
    (∀ r ∈ okTable.rows, ∀ c ∈ ("total_boites") :: prescColsOf okTable,
      ∀ q, r c = Cell.num q → 0 ≤ q)
    ∧ (∀ x ∈ (buildOut noMaps okTable ("CIP13")).1.col ("total_boites"),
        ∃ z : ℤ, x = Cell.num (z : ℚ) ∧ 0 ≤ z) := by
  have hh : ∀ r ∈ okTable.rows, ∀ c ∈ ("total_boites") :: prescColsOf okTable,
      ∀ q, r c = Cell.num q → 0 ≤ q := by
    intro r hr c hc q hq
    have hrr : r = fun n => if n = "total_boites" then Cell.num 7
        else if n = "01" then Cell.str ("oops") else Cell.str ("1") := by
      simpa [okTable] using hr
    subst hrr
    by_cases h1 : c = "total_boites"
    · subst h1
      rw [show (fun n => if n = "total_boites" then Cell.num 7
          else if n = "01" then Cell.str ("oops") else Cell.str ("1")) ("total_boites")
            = Cell.num 7 from rfl] at hq
      rw [Cell.num.injEq] at hq
      rw [← hq]
      norm_num
    · by_cases h2 : c = "01" <;> simp [h1, h2] at hq
  refine ⟨hh, ?_⟩
  exact (C3_amended noMaps okTable ("CIP13") (buildOut noMaps okTable ("CIP13")).1
    (buildOut noMaps okTable ("CIP13")).2.1 (buildOut noMaps okTable ("CIP13")).2.2
    okTable_clean (by unfold load_unified; simp [okTable]) hh).1

/-! C10: integer cast truncates toward zero. -/

/-- C10: the numeric columns of the normalizer output are the coerced
input cells, the coercion of a parsed number is the integer truncation
toward zero, and on 3.7 that truncation gives 3 (not 0 and not 4), with
the symmetric behavior on negative values. -/
theorem C10_truncation (mp : Maps) (t : Table) (key_col : String)
    (out : Table) (d : String) (ps : List String)
    (hclean : CleanInput mp t)
    (hok : load_unified mp t key_col = Except.ok (out, d, ps)) :
    (out.col ("total_boites") = t.rows.map (fun r => coerceNumeric (r ("total_boites"))))
    ∧ (∀ n ∈ ps, ∃ c ∈ prescColsOf t,
        out.col n = t.rows.map (fun r => coerceNumeric (r c)))
    ∧ (∀ q : ℚ, coerceNumeric (Cell.num q) = Cell.num ((astypeInt q : ℤ) : ℚ))
    ∧ astypeInt (37/10) = 3 ∧ astypeInt (-(37/10)) = -3 := by
  have hres := load_unified_ok hok
  have hout : out = (buildOut mp t key_col).1 := congrArg Prod.fst hres
  have hps : ps = (buildOut mp t key_col).2.2 := congrArg (fun p => p.2.2) hres
  refine ⟨?_, ?_, fun q => rfl, ?_, ?_⟩
  · rw [hout, buildOut_col_core mp t key_col hclean (by simp [coreCols])]
    exact List.map_congr_left (fun r _ => labRow_total mp t key_col r)
  · intro n hn
    rw [hps] at hn
    obtain ⟨c, hc, _, hcol⟩ := buildOut_col_presc mp t key_col hclean hn
    exact ⟨c, hc, hout ▸ hcol⟩
  · rw [astypeInt, if_pos (by norm_num : (0 : ℚ) ≤ 37/10)]
    norm_num [Int.floor_eq_iff]
  · rw [astypeInt, if_neg (by norm_num : ¬ (0 : ℚ) ≤ -(37/10))]
    norm_num [Int.ceil_eq_iff]

/-- A raw table whose total cell parses to the non-integer 3.7. -/
def fracTable : Table :=
  ⟨["BEN_REG", "sexe", "age", "CIP13", "total_boites"],
   [fun n => if n = "total_boites" then Cell.num (37/10) else Cell.str ("1")]⟩

/-- The clean-input conditions hold for fracTable with empty maps. -/
lemma fracTable_clean : CleanInput noMaps fracTable := by
  refine ⟨by decide, by decide, ?_⟩
  intro c hc hk
  exfalso
  rcases (by simpa [fracTable] using hc : c = "BEN_REG" ∨ c = "sexe" ∨ c = "age"
      ∨ c = "CIP13" ∨ c = "total_boites") with h | h | h | h | h <;>
    exact hk (by simp [key_cols, h])

/-- Witness for C10: on a table whose total cell is 3.7 the output
total column holds exactly the integer 3. -/
theorem C10_truncation_witness :
    (buildOut noMaps fracTable ("CIP13")).1.col ("total_boites")
      = fracTable.rows.map (fun r => coerceNumeric (r ("total_boites")))
    ∧ (buildOut noMaps fracTable ("CIP13")).1.col ("total_boites") = [Cell.num 3] := by
  have happ := (C10_truncation noMaps fracTable ("CIP13")
    (buildOut noMaps fracTable ("CIP13")).1 (buildOut noMaps fracTable ("CIP13")).2.1
    (buildOut noMaps fracTable ("CIP13")).2.2 fracTable_clean
    (by unfold load_unified; simp [fracTable])).1
  refine ⟨happ, ?_⟩
  rw [happ]
  rw [show fracTable.rows = [fun n => if n = "total_boites" then Cell.num (37/10)
      else Cell.str ("1")] from rfl]
  rw [List.map_cons, List.map_nil]
  simp only [if_pos rfl, ite_true, coerceNumeric, coerceCell, toNumericCoerce,
    Option.getD_some, astypeInt]
  rw [if_pos (by norm_num : (0 : ℚ) ≤ 37/10)]
  have hfl : (⌊(37/10 : ℚ)⌋ : ℤ) = 3 := by norm_num [Int.floor_eq_iff]
  rw [hfl]
  norm_num

/-! C6: lookup misses fall back to the raw code. -/

/-- C6: the Region column of the normalizer output is the map-with-
fallback resolution of the raw region codes (a total operation, raising
nothing); an unmapped string code survives verbatim, both in the
normalizer output and in the aggregator segment rows. -/
theorem C6_lookup_miss (mp : Maps) (t : Table) (key_col : String)
    (out : Table) (d : String) (ps : List String)
    (hclean : CleanInput mp t)
    (hok : load_unified mp t key_col = Except.ok (out, d, ps)) :
    (out.col ("Region")
        = t.rows.map (fun r => mapFillna mp.region (r ("BEN_REG")) (r ("BEN_REG"))))
    ∧ (∀ s, lookupMap mp.region s = none →
        ∀ r ∈ t.rows, r ("BEN_REG") = Cell.str s →
          mapFillna mp.region (r ("BEN_REG")) (r ("BEN_REG")) = Cell.str s)
    ∧ (∀ (brand generic : UTable) (k : SegKey) (s : String),
        lookupMap mp.region s = none → k ∈ mergedKeys brand generic →
          k.reg = Cell.str s →
          (segRow mp brand generic k).region = Cell.str s
            ∧ segRow mp brand generic k
                ∈ (compare_brand_vs_generic mp brand generic).segment_comparison) := by
  have hres := load_unified_ok hok
  have hout : out = (buildOut mp t key_col).1 := congrArg Prod.fst hres
  refine ⟨?_, ?_, ?_⟩
  · rw [hout, buildOut_col_core mp t key_col hclean (by simp [coreCols])]
    exact List.map_congr_left (fun r _ => labRow_region mp t key_col r)
  · intro s hs r _ hr
    rw [hr]
    simp [mapFillna, hs]
  · intro brand generic k s hs hk hreg
    constructor
    · rw [segRow]
      simp only [hreg, astypeStr, mapFillna, hs]
    · exact mem_segmentComparison.mpr ⟨k, hk, rfl⟩

/-- Witness for C6: with empty maps, the unmapped region code 1 appears
verbatim in the normalizer Region column, and the unmapped code 5
appears verbatim in the segment row of the example scenario. -/
theorem C6_lookup_miss_witness :
    (buildOut noMaps negTable ("CIP13")).1.col ("Region") = [Cell.str ("1")]
    ∧ (segRow noMaps exBrand exGeneric
        ⟨Cell.str ("5"), Cell.str ("1"), Cell.str ("20")⟩).region = Cell.str ("5") := by
  have h := C6_lookup_miss noMaps negTable ("CIP13")
    (buildOut noMaps negTable ("CIP13")).1 (buildOut noMaps negTable ("CIP13")).2.1
    (buildOut noMaps negTable ("CIP13")).2.2 negTable_clean
    (by unfold load_unified; simp [negTable])
  constructor
  · rw [h.1]
    rw [show negTable.rows = [fun n => if n = "total_boites" then Cell.num (-5)
        else Cell.str ("1")] from rfl]
    rw [List.map_cons, List.map_nil]
    rw [show (fun n => if n = "total_boites" then Cell.num (-5) else Cell.str ("1"))
        ("BEN_REG") = Cell.str ("1") from rfl]
    simp [mapFillna, lookupMap, noMaps]
  · exact (h.2.2 exBrand exGeneric ⟨Cell.str ("5"), Cell.str ("1"), Cell.str ("20")⟩
      ("5") rfl (by decide) rfl).1

/-! C7: column structure of the normalizer output. -/

/-- A rename result that collides with a reserved name can only be a
column that was never renamed. -/
lemma renameFn_reserved_hit (mp : Maps) (t : Table) (key_col : String)
    (hclean : CleanInput mp t) {c n : String}
    (_hct : c ∈ t.cols) (hn : n ∈ reserved_cols)
    (h : renameFn mp t key_col c = n) : c = n := by
  by_cases hcr : c ∈ rawPres mp t key_col
  · exfalso
    rw [renameFn] at h
    rw [if_pos hcr] at h
    have hcp : c ∈ prescColsOf t := (rawPres_eq mp t key_col hclean.noLabels) ▸ hcr
    rw [prescColsOf, List.mem_filter, decide_eq_true_eq] at hcp
    exact hclean.goodRenames c hcp.1 hcp.2 (by rw [h]; exact hn)
  · rw [renameFn] at h
    rw [if_neg hcr] at h
    exact h

/-- A label column is never among the renamed prescriber columns. -/
lemma label_not_in_rawPres (mp : Maps) (t : Table) (key_col : String)
    (hclean : CleanInput mp t) {c : String} (hcl : c ∈ label_cols) :
    c ∉ rawPres mp t key_col := by
  rw [rawPres_eq mp t key_col hclean.noLabels]
  intro h
  rw [prescColsOf, List.mem_filter, decide_eq_true_eq] at h
  exact hclean.noLabels c h.1 hcl

/-- The output column list: the surviving source columns renamed,
followed by the label columns. -/
lemma buildOut_cols (mp : Maps) (t : Table) (key_col : String)
    (hclean : CleanInput mp t) :
    (buildOut mp t key_col).1.cols
      = (t.cols.filter (fun c => decide (c ∉ dropped_cols))).map (renameFn mp t key_col)
          ++ [("Region"), ("Sex"), ("Age"), displayOf key_col] := by
  show ((droppedT mp t key_col).cols.map (renameFn mp t key_col)) = _
  rw [droppedT_cols mp t key_col hclean.noLabels, List.map_append]
  have hR : renameFn mp t key_col ("Region") = ("Region") := by
    rw [renameFn]
    exact if_neg (label_not_in_rawPres mp t key_col hclean (by simp [label_cols]))
  have hS : renameFn mp t key_col ("Sex") = ("Sex") := by
    rw [renameFn]
    exact if_neg (label_not_in_rawPres mp t key_col hclean (by simp [label_cols]))
  have hA : renameFn mp t key_col ("Age") = ("Age") := by
    rw [renameFn]
    exact if_neg (label_not_in_rawPres mp t key_col hclean (by simp [label_cols]))
  have hD : renameFn mp t key_col (displayOf key_col) = displayOf key_col := by
    rw [renameFn]
    exact if_neg (label_not_in_rawPres mp t key_col hclean
      (displayOf_mem_label_cols key_col))
  rw [List.map_cons, List.map_cons, List.map_cons, List.map_cons, List.map_nil,
    hR, hS, hA, hD]

/-- The raw code columns and label columns share no name. -/
lemma dropped_label_disjoint : ∀ x ∈ dropped_cols, x ∉ label_cols := by decide

/-- No raw code column survives into the output column list. -/
lemma code_not_in_outCols (mp : Maps) (t : Table) (key_col : String)
    (hclean : CleanInput mp t) {c : String} (hc : c ∈ dropped_cols) :
    c ∉ (buildOut mp t key_col).1.cols := by
  rw [buildOut_cols mp t key_col hclean]
  intro h
  rcases List.mem_append.mp h with h | h
  · obtain ⟨c', hc', hren⟩ := List.mem_map.mp h
    rw [List.mem_filter, decide_eq_true_eq] at hc'
    have hcc := renameFn_reserved_hit mp t key_col hclean hc'.1
      (List.mem_append_right _ (dropped_subset_key c hc)) hren
    exact hc'.2 (hcc ▸ hc)
  · have hcl : c ∈ label_cols := by
      rcases (by simpa using h : c = "Region" ∨ c = "Sex" ∨ c = "Age"
          ∨ c = displayOf key_col) with h1 | h1 | h1 | h1
      · simp [label_cols, h1]
      · simp [label_cols, h1]
      · simp [label_cols, h1]
      · exact h1 ▸ displayOf_mem_label_cols key_col
    exact dropped_label_disjoint c hc hcl

/-- A label column that is not among the four appended ones is absent
from the output column list. -/
lemma other_label_not_in_outCols (mp : Maps) (t : Table) (key_col : String)
    (hclean : CleanInput mp t) {c : String} (hcl : c ∈ label_cols)
    (hne : c ∉ [("Region"), ("Sex"), ("Age"), displayOf key_col]) :
    c ∉ (buildOut mp t key_col).1.cols := by
  rw [buildOut_cols mp t key_col hclean]
  intro h
  rcases List.mem_append.mp h with h | h
  · obtain ⟨c', hc', hren⟩ := List.mem_map.mp h
    rw [List.mem_filter, decide_eq_true_eq] at hc'
    have hcc := renameFn_reserved_hit mp t key_col hclean hc'.1
      (List.mem_append_left _ hcl) hren
    exact hclean.noLabels c' hc'.1 (hcc ▸ hcl)
  · exact hne h

/-- The display column appears exactly once in the output column list. -/
lemma count_display (mp : Maps) (t : Table) (key_col : String)
    (hclean : CleanInput mp t) :
    ((buildOut mp t key_col).1.cols).count (displayOf key_col) = 1 := by
  rw [buildOut_cols mp t key_col hclean, List.count_append]
  have h1 : ((t.cols.filter (fun c => decide (c ∉ dropped_cols))).map
      (renameFn mp t key_col)).count (displayOf key_col) = 0 := by
    rw [List.count_eq_zero]
    intro h
    obtain ⟨c', hc', hren⟩ := List.mem_map.mp h
    rw [List.mem_filter, decide_eq_true_eq] at hc'
    have hcc := renameFn_reserved_hit mp t key_col hclean hc'.1
      (List.mem_append_left _ (displayOf_mem_label_cols key_col)) hren
    exact hclean.noLabels c' hc'.1 (hcc ▸ displayOf_mem_label_cols key_col)
  have h2 : ([("Region"), ("Sex"), ("Age"), displayOf key_col]).count
      (displayOf key_col) = 1 := by
    by_cases hk : key_col = "GEN_NUM" <;> simp [displayOf, hk]
  rw [h1, h2]

/-- C7: the normalizer output drops every raw code column and carries
exactly one product display column: Generic holding the raw group code
when the key is GEN_NUM, Medication holding the lookup-resolved label
when the key is CIP13. -/
theorem C7_columns (mp : Maps) (t : Table)
    (outG : Table) (dG : String) (psG : List String)
    (outC : Table) (dC : String) (psC : List String)
    (hclean : CleanInput mp t)
    (hokG : load_unified mp t ("GEN_NUM") = Except.ok (outG, dG, psG))
    (hokC : load_unified mp t ("CIP13") = Except.ok (outC, dC, psC)) :
    (∀ c ∈ dropped_cols, c ∉ outG.cols ∧ c ∉ outC.cols)
    ∧ outG.cols.count ("Generic") = 1
    ∧ ("Medication") ∉ outG.cols
    ∧ outG.col ("Generic") = t.rows.map (fun r => r ("GEN_NUM"))
    ∧ outC.cols.count ("Medication") = 1
    ∧ ("Generic") ∉ outC.cols
    ∧ outC.col ("Medication")
        = t.rows.map (fun r => mapFillna mp.cpi (r ("CIP13")) (r ("CIP13"))) := by
  have houtG : outG = (buildOut mp t ("GEN_NUM")).1 :=
    congrArg Prod.fst (load_unified_ok hokG)
  have houtC : outC = (buildOut mp t ("CIP13")).1 :=
    congrArg Prod.fst (load_unified_ok hokC)
  refine ⟨?_, ?_, ?_, ?_, ?_, ?_, ?_⟩
  · intro c hc
    exact ⟨houtG ▸ code_not_in_outCols mp t ("GEN_NUM") hclean hc,
      houtC ▸ code_not_in_outCols mp t ("CIP13") hclean hc⟩
  · rw [houtG]
    exact count_display mp t ("GEN_NUM") hclean
  · rw [houtG]
    exact other_label_not_in_outCols mp t ("GEN_NUM") hclean
      (by simp [label_cols]) (by simp [displayOf])
  · rw [houtG, buildOut_col_core mp t ("GEN_NUM") hclean (by simp [coreCols, displayOf])]
    apply List.map_congr_left
    intro r _
    have h := labRow_display mp t ("GEN_NUM") r
    rw [if_pos rfl] at h
    exact h
  · rw [houtC]
    exact count_display mp t ("CIP13") hclean
  · rw [houtC]
    exact other_label_not_in_outCols mp t ("CIP13") hclean
      (by simp [label_cols]) (by simp [displayOf])
  · rw [houtC, buildOut_col_core mp t ("CIP13") hclean (by simp [coreCols, displayOf])]
    apply List.map_congr_left
    intro r _
    have h := labRow_display mp t ("CIP13") r
    rw [if_neg (by decide : ¬ ("CIP13" : String) = "GEN_NUM")] at h
    exact h

/-- A raw table carrying both product-key columns and one prescriber
column. -/
def fullTable : Table :=
  ⟨["BEN_REG", "sexe", "age", "CIP13", "GEN_NUM", "total_boites", "01"],
   [fun n => if n = "total_boites" then Cell.num 7
     else if n = "01" then Cell.num 2 else Cell.str n]⟩

/-- The clean-input conditions hold for fullTable with empty maps. -/
lemma fullTable_clean : CleanInput noMaps fullTable :=
  ⟨by decide, by decide, by decide⟩

/-- Witness for C7 on fullTable. -/
theorem C7_columns_witness :
    ("BEN_REG") ∉ (buildOut noMaps fullTable ("GEN_NUM")).1.cols
    ∧ (buildOut noMaps fullTable ("GEN_NUM")).1.cols.count ("Generic") = 1
    ∧ (buildOut noMaps fullTable ("CIP13")).1.cols.count ("Medication") = 1 := by
  have h := C7_columns noMaps fullTable
    (buildOut noMaps fullTable ("GEN_NUM")).1 (buildOut noMaps fullTable ("GEN_NUM")).2.1
    (buildOut noMaps fullTable ("GEN_NUM")).2.2
    (buildOut noMaps fullTable ("CIP13")).1 (buildOut noMaps fullTable ("CIP13")).2.1
    (buildOut noMaps fullTable ("CIP13")).2.2 fullTable_clean
    (by unfold load_unified; simp [fullTable])
    (by unfold load_unified; simp [fullTable])
  exact ⟨(h.1 ("BEN_REG") (by simp [dropped_cols])).1, h.2.1, h.2.2.2.2.1⟩

/-! C9: a table with neither product-key column is a fatal input error. -/

/-- A table with no columns and no rows. -/
def emptyTable : Table := ⟨[], []⟩

/-- C9: on a table containing neither a CIP13 nor a GEN_NUM column, both
prepare_unified and load_unified fail with an error instead of returning
a table. -/
theorem C9_missing_key_error (mp : Maps) (t : Table) (product_type key_col : String)
    (h1 : "CIP13" ∉ t.cols) (h2 : "GEN_NUM" ∉ t.cols) :
    (∃ e, prepare_unified t product_type = Except.error e)
      ∧ (∃ e, load_unified mp t key_col = Except.error e) := by
  constructor
  · refine ⟨("No product code column found (CIP13 or GEN_NUM)"), ?_⟩
    unfold prepare_unified
    rw [if_neg h1, if_neg h2]
  · unfold load_unified
    split_ifs <;> exact ⟨_, rfl⟩

/-- Witness for C9 at a concrete table with no columns. -/
theorem C9_missing_key_error_witness :
    ("CIP13" ∉ emptyTable.cols ∧ "GEN_NUM" ∉ emptyTable.cols)
      ∧ ((∃ e, prepare_unified emptyTable ("brand") = Except.error e)
          ∧ (∃ e, load_unified noMaps emptyTable ("CIP13") = Except.error e)) :=
  ⟨⟨by simp [emptyTable], by simp [emptyTable]⟩,
   C9_missing_key_error noMaps emptyTable ("brand") ("CIP13")
     (by simp [emptyTable]) (by simp [emptyTable])⟩

end Pharma
